import Mathlib

/-!
Shallow embedding of `src/policy_eval/utils.py` from the
state-dependent-price-of-anarchy repository.

Python numpy arrays are modelled as lists of rationals, torch tensors as a
data list together with a device string, Python dicts as association lists
(dict iteration order is insertion order, which an association list keeps),
and operations that can raise (dict lookup, list indexing, `torch.from_numpy`
on a non-array) return `Option`.  The environment and the policies are
external black boxes (per the repository's own documentation) and are
modelled as records of pure functions; the environment's hidden internal
state is an explicit type parameter `σ` threaded through every call.
-/

/-- numpy arrays (`np.ndarray`) are modelled as lists of rationals. -/
abbrev NDArray := List Rat

/-- A torch tensor: its numeric data together with the device it lives on. -/
structure Tensor where
  data : List Rat
  device : String
deriving Repr, DecidableEq

/-- Model of `torch.from_numpy`: a fresh tensor on the default device. -/
def torch_from_numpy (a : NDArray) : Tensor :=
  ⟨a, "cpu"⟩

/-- Model of `Tensor.to(device)`: same data, moved to `device`. -/
def Tensor.to (t : Tensor) (device : String) : Tensor :=
  ⟨t.data, device⟩

/-- Model of `torch.tensor(a, dtype=torch.float32)`: a fresh tensor on the
default device holding `a`'s data. -/
def torch_tensor_f32 (a : NDArray) : Tensor :=
  ⟨a, "cpu"⟩

/-- Model of `t.cpu().numpy()`: the underlying numeric data. -/
def Tensor.cpu_numpy (t : Tensor) : NDArray :=
  t.data

/-- A value stored in a multi-agent observation dict: either a raw numpy
array (as returned by the environment) or the marshaled
`\x7b"obs": tensor, "state": tensor\x7d` dictionary built by
`process_observation`. -/
inductive ObsVal where
  | raw (a : NDArray)
  | marshaled (obs : Tensor) (state : Tensor)
deriving Repr, DecidableEq

/-- A multi-agent observation dictionary, keyed by agent-id strings. -/
abbrev ObsMap := List (String × ObsVal)

/-- Injection of an environment-produced observation dict (whose values are
raw numpy arrays) into the dict-value type. -/
def rawObs (m : List (String × NDArray)) : ObsMap :=
  m.map fun kv => (kv.1, ObsVal.raw kv.2)

/-- `torch.from_numpy` applied to a dict value: succeeds only on a raw
numpy array, raises (`none`) otherwise. -/
def from_numpy_val : ObsVal → Option NDArray
  | ObsVal.raw a => some a
  | ObsVal.marshaled _ _ => none

/-- Embedding of `process_observation` (src/policy_eval/utils.py lines
31-50): for every key of `ma_obs`, in order, replace the stored value `v`
with the dictionary `\x7b"obs": torch.from_numpy(v).to(device), "state": state\x7d`,
and return the resulting mapping. -/
def process_observation (ma_obs : ObsMap) (device : String) (state : Tensor) :
    Option ObsMap :=
  ma_obs.mapM fun kv =>
    match from_numpy_val kv.2 with
    | none => none
    | some a => some (kv.1, ObsVal.marshaled ((torch_from_numpy a).to device) state)

/-- The value held by the caller's `ma_obs` dictionary after
`process_observation` returns.  The Python function reassigns
`ma_obs[key]` in place for every key and then returns the very same
dictionary object (lines 48-50), so on success the argument's final value
coincides with the returned mapping. -/
def process_observation_arg_after (ma_obs : ObsMap) (device : String)
    (state : Tensor) : Option ObsMap :=
  process_observation ma_obs device state

/-- The `explore` keyword of RLlib's `compute_single_action`: either left
absent or passed explicitly. -/
inductive ExploreArg where
  | absent
  | explicit (b : Bool)
deriving Repr, DecidableEq

/-- An agent policy (external black box).  `compute_single_action o e` is
the first component of the tuple returned by the Python call
`policy.compute_single_action(o)` (when `e` is `absent`) or
`policy.compute_single_action(o, explore=b)` (when `e` is `explicit b`). -/
structure Policy (Act : Type) where
  compute_single_action : ObsVal → ExploreArg → Act

/-- Embedding of `select_action` (src/policy_eval/utils.py lines 93-122):
a dict comprehension over `i in range(num_agents)` keyed by `f"\x7bi\x7d"`; in the
stochastic branch `explore` is left absent, in the deterministic branch
`explore=False` is passed.  Dict lookup `ma_obs[f"\x7bi\x7d"]` and list indexing
`agent_policies[i]` may raise, hence `Option`. -/
def select_action {Act : Type} (ma_obs : ObsMap) (agent_policies : List (Policy Act))
    (num_agents : Nat) (stochastic_policy : Bool) : Option (List (String × Act)) :=
  if stochastic_policy then
    (List.range num_agents).mapM fun i =>
      match ma_obs.lookup (toString i), agent_policies[i]? with
      | some o, some p => some (toString i, p.compute_single_action o ExploreArg.absent)
      | _, _ => none
  else
    (List.range num_agents).mapM fun i =>
      match ma_obs.lookup (toString i), agent_policies[i]? with
      | some o, some p =>
          some (toString i, p.compute_single_action o (ExploreArg.explicit false))
      | _, _ => none

/-- The trainer object held by a loaded checkpoint (external black box):
`get_policy` returns the policy registered under a name. -/
structure Trainer (Act : Type) where
  get_policy : String → Policy Act

/-- A loaded checkpoint, as returned by the external `load_model`. -/
structure Checkpoint (Act : Type) where
  trainer : Trainer Act

/-- Embedding of `load_agent_policies` (src/policy_eval/utils.py lines
53-90): load the checkpoint from the two paths via the external
`load_model`, then either replicate `get_policy("shared_policy")`
`num_agents` times, or fetch `get_policy("policy_" + f"\x7bi\x7d")` for each
`i in range(num_agents)`. -/
def load_agent_policies {Act : Type}
    (load_model : String → String → Checkpoint Act)
    (model_path params_path : String) (shared_policy : Bool)
    (num_agents : Nat) : List (Policy Act) :=
  let ckpt := load_model model_path params_path
  if shared_policy then
    (List.range num_agents).map fun _ => ckpt.trainer.get_policy "shared_policy"
  else
    (List.range num_agents).map fun i =>
      ckpt.trainer.get_policy ("policy_" ++ toString i)

/-- An environment agent; only its `index` attribute is read by the code. -/
structure Agent where
  index : Nat
deriving Repr, DecidableEq

/-- The wildfire environment, an external black box with hidden internal
state `σ`.  The fields are exactly the operations and attributes
src/policy_eval/utils.py uses: `step` returns the next observations, the
per-agent reward dict and the done flag (the trailing `info` component is
bound to `_` and ignored by the code, so it is not modelled);
`get_state_interpretation` is the first component of the tuple returned by
the Python call (the only component the code reads); `reset` takes the
optional `state=` keyword argument. -/
structure EnvSpec (σ Act : Type) where
  num_agents : Nat
  agents : List Agent
  initial_fire_size : Nat
  step : σ → List (String × Act) → σ × List (String × NDArray) × List (String × Rat) × Bool
  get_state : σ → NDArray
  get_state_interpretation : NDArray → List (Int × Int)
  reset : σ → Option NDArray → σ × List (String × NDArray)

/-- Embedding of the inner `for t in count()` loop of `run_episodes`
(src/policy_eval/utils.py lines 181-197), with explicit fuel for the
unbounded iteration: select a joint action, step the environment, add
`gamma ** t * reward[f"\x7benv.agents[0].index\x7d"]` to the return accumulator,
stop when `done`, otherwise marshal the next observation from
`env.get_state()` and continue with `t + 1`.  Returns the environment
state after the break together with the accumulated return; `none` models
a raised exception or exhausted fuel. -/
def run_episode_steps {σ Act : Type} (E : EnvSpec σ Act) (pols : List (Policy Act))
    (stochastic_policy : Bool) (gamma : Rat) (device : String) :
    Nat → σ → ObsMap → Rat → Nat → Option (σ × Rat)
  | 0, _, _, _, _ => none
  | fuel + 1, s, ma_obs, ret, t =>
    match select_action ma_obs pols E.num_agents stochastic_policy with
    | none => none
    | some ma_action =>
      let stepRes := E.step s ma_action
      let s' := stepRes.1
      let next_obs := stepRes.2.1
      let reward := stepRes.2.2.1
      let done := stepRes.2.2.2
      match E.agents[0]? with
      | none => none
      | some a0 =>
        match reward.lookup (toString a0.index) with
        | none => none
        | some r =>
          let ret' := ret + gamma ^ t * r
          if done then some (s', ret')
          else
            match process_observation (rawObs next_obs) device
                ((torch_tensor_f32 (E.get_state s')).to device) with
            | none => none
            | some ma_obs' =>
              run_episode_steps E pols stochastic_policy gamma device fuel s' ma_obs' ret' (t + 1)

/-- Ghost mirror of `run_episode_steps` that records, instead of the
discounted accumulator, the list of `(reward[agent 0], done)` pairs the
environment's `step` calls yield, one entry per `env.step` call of the
episode, in order.  It follows the very same control flow as the loop at
src/policy_eval/utils.py lines 181-197. -/
def episode_trace {σ Act : Type} (E : EnvSpec σ Act) (pols : List (Policy Act))
    (stochastic_policy : Bool) (device : String) :
    Nat → σ → ObsMap → Option (List (Rat × Bool))
  | 0, _, _ => none
  | fuel + 1, s, ma_obs =>
    match select_action ma_obs pols E.num_agents stochastic_policy with
    | none => none
    | some ma_action =>
      let stepRes := E.step s ma_action
      let s' := stepRes.1
      let next_obs := stepRes.2.1
      let reward := stepRes.2.2.1
      let done := stepRes.2.2.2
      match E.agents[0]? with
      | none => none
      | some a0 =>
        match reward.lookup (toString a0.index) with
        | none => none
        | some r =>
          if done then some [(r, true)]
          else
            match process_observation (rawObs next_obs) device
                ((torch_tensor_f32 (E.get_state s')).to device) with
            | none => none
            | some ma_obs' =>
              match episode_trace E pols stochastic_policy device fuel s' ma_obs' with
              | none => none
              | some tr => some ((r, false) :: tr)

/-- The initial-state-identifier computation of `run_episodes`
(src/policy_eval/utils.py lines 204-210 and 222-228): index the
fire-cell-position list at 0 when `initial_fire_size` is even and at
`(initial_fire_size ** 2 - 1) // 2` when it is odd. -/
def pick_identifier (initial_fire_size : Nat) (trees_on_fire : List (Int × Int)) :
    Option (Int × Int) :=
  if initial_fire_size % 2 = 0 then trees_on_fire[0]?
  else trees_on_fire[(initial_fire_size ^ 2 - 1) / 2]?

/-- Embedding of the per-episode loop of `run_episodes`
(src/policy_eval/utils.py lines 177-232), recursing on the number of
remaining episodes.  Each round runs one episode via `run_episode_steps`
(return accumulator 0, `t` starting at 0), derives the initial state
identifier from the current `state` variable, appends the record, and
resets: in sampled-start mode (`estimate_expected_value = true`) reset
with no argument, re-query `get_state` and rebind `state`; in fixed-start
mode reset with `state=state.cpu().numpy()` and leave `state` unchanged.
Returns the final environment state, observation, `state` variable and the
collected `(return, identifier)` records in episode order. -/
def run_episodes_loop {σ Act : Type} (E : EnvSpec σ Act) (pols : List (Policy Act))
    (stochastic_policy : Bool) (gamma : Rat) (device : String)
    (estimate_expected_value : Bool) (fuel : Nat) :
    Nat → σ → ObsMap → Tensor → Option (σ × ObsMap × Tensor × List (Rat × (Int × Int)))
  | 0, s, ma_obs, state => some (s, ma_obs, state, [])
  | n + 1, s, ma_obs, state =>
    match run_episode_steps E pols stochastic_policy gamma device fuel s ma_obs 0 0 with
    | none => none
    | some (s1, ret) =>
      let trees_on_fire := E.get_state_interpretation state.cpu_numpy
      match pick_identifier E.initial_fire_size trees_on_fire with
      | none => none
      | some initial_state_identifier =>
        if estimate_expected_value then
          let resetRes := E.reset s1 none
          let s2 := resetRes.1
          let obs := resetRes.2
          let state' := (torch_tensor_f32 (E.get_state s2)).to device
          match process_observation (rawObs obs) device state' with
          | none => none
          | some ma_obs' =>
            match run_episodes_loop E pols stochastic_policy gamma device
                estimate_expected_value fuel n s2 ma_obs' state' with
            | none => none
            | some (s3, m3, st3, rest) =>
              some (s3, m3, st3, (ret, initial_state_identifier) :: rest)
        else
          let resetRes := E.reset s1 (some state.cpu_numpy)
          let s2 := resetRes.1
          let obs := resetRes.2
          match process_observation (rawObs obs) device state with
          | none => none
          | some ma_obs' =>
            match run_episodes_loop E pols stochastic_policy gamma device
                estimate_expected_value fuel n s2 ma_obs' state with
            | none => none
            | some (s3, m3, st3, rest) =>
              some (s3, m3, st3, (ret, initial_state_identifier) :: rest)

/-- Embedding of `run_episodes` (src/policy_eval/utils.py lines 125-233):
load the agent policies from the checkpoint paths, run the requested
number of episodes, and return the `(return, identifier)` records. -/
def run_episodes {σ Act : Type} (num_episodes : Nat) (E : EnvSpec σ Act) (env0 : σ)
    (gamma : Rat) (ma_obs : ObsMap) (state : Tensor) (device : String)
    (load_model : String → String → Checkpoint Act)
    (model_path params_path : String) (shared_policy : Bool)
    (stochastic_policy : Bool) (estimate_expected_value : Bool)
    (fuel : Nat) : Option (List (Rat × (Int × Int))) :=
  let agent_policies :=
    load_agent_policies load_model model_path params_path shared_policy E.num_agents
  (run_episodes_loop E agent_policies stochastic_policy gamma device
      estimate_expected_value fuel num_episodes env0 ma_obs state).map
    fun r => r.2.2.2

/-- A concrete fire-cell-position list of length 9 (a 3 × 3 square), used
to instantiate the black-box environment in the concrete test fixtures. -/
def cInterp : List (Int × Int) :=
  [(0, 0), (0, 1), (0, 2), (1, 0), (1, 1), (1, 2), (2, 0), (2, 1), (2, 2)]

/-- A concrete instantiation of the black-box environment over internal
state `Nat` (a step counter): every step rewards agent 0 with 1 and agent
1 with 5, episodes terminate after the third step, and the interpretation
of any raw state is the 3 × 3 fire square `cInterp`. -/
def cEnv : EnvSpec Nat Nat where
  num_agents := 2
  agents := [⟨0⟩, ⟨1⟩]
  initial_fire_size := 3
  step := fun s _ =>
    (s + 1, [("0", [(s : Rat)]), ("1", [(s : Rat)])], [("0", 1), ("1", 5)], s + 1 == 3)
  get_state := fun s => [(s : Rat)]
  get_state_interpretation := fun _ => cInterp
  reset := fun _ _ => (0, [("0", [0]), ("1", [0])])

/-- A variant of `cEnv` that differs from it only in the reward granted to
agent 1 (7 instead of 5). -/
def cEnv' : EnvSpec Nat Nat where
  num_agents := 2
  agents := [⟨0⟩, ⟨1⟩]
  initial_fire_size := 3
  step := fun s _ =>
    (s + 1, [("0", [(s : Rat)]), ("1", [(s : Rat)])], [("0", 1), ("1", 7)], s + 1 == 3)
  get_state := fun s => [(s : Rat)]
  get_state_interpretation := fun _ => cInterp
  reset := fun _ _ => (0, [("0", [0]), ("1", [0])])

/-- A concrete policy that always picks action 0. -/
def cPol : Policy Nat :=
  ⟨fun _ _ => 0⟩

/-- The concrete policy list for the two agents of `cEnv`. -/
def cPols : List (Policy Nat) :=
  [cPol, cPol]

/-- A concrete model loader whose checkpoint returns `cPol` under every
policy name. -/
def cLoad : String → String → Checkpoint Nat :=
  fun _ _ => ⟨⟨fun _ => cPol⟩⟩

/-- A concrete initial `state` tensor. -/
def cSt : Tensor :=
  ⟨[9], "cpu"⟩

/-- A concrete initial marshaled observation dict for the two agents of
`cEnv`, whose state component is `cSt`. -/
def cObs : ObsMap :=
  [("0", ObsVal.marshaled ⟨[0], "cpu"⟩ cSt), ("1", ObsVal.marshaled ⟨[0], "cpu"⟩ cSt)]

/-- A ghost per-episode record for the instrumented runner: the
environment state, observation dict and `state` tensor at the start of the
episode, the accumulated return, the recorded identifier, the environment
state right after the episode's terminal step (before reset), and the
argument passed to `env.reset` after the episode. -/
structure EpisodeRecord (σ : Type) where
  start_env : σ
  start_obs : ObsMap
  start_state : Tensor
  ret : Rat
  identifier : Int × Int
  end_env : σ
  reset_arg : Option NDArray
deriving Repr, DecidableEq

/-- Ghost mirror of `run_episodes_loop` that additionally records, per
episode, an `EpisodeRecord`.  It performs exactly the same calls in the
same order as `run_episodes_loop`; the projection lemma
`run_episodes_loop_eq_instr` ties the two. -/
def run_episodes_instr {σ Act : Type} (E : EnvSpec σ Act) (pols : List (Policy Act))
    (stochastic_policy : Bool) (gamma : Rat) (device : String)
    (estimate_expected_value : Bool) (fuel : Nat) :
    Nat → σ → ObsMap → Tensor → Option (σ × ObsMap × Tensor × List (EpisodeRecord σ))
  | 0, s, ma_obs, state => some (s, ma_obs, state, [])
  | n + 1, s, ma_obs, state =>
    match run_episode_steps E pols stochastic_policy gamma device fuel s ma_obs 0 0 with
    | none => none
    | some (s1, ret) =>
      let trees_on_fire := E.get_state_interpretation state.cpu_numpy
      match pick_identifier E.initial_fire_size trees_on_fire with
      | none => none
      | some initial_state_identifier =>
        if estimate_expected_value then
          let resetRes := E.reset s1 none
          let s2 := resetRes.1
          let obs := resetRes.2
          let state' := (torch_tensor_f32 (E.get_state s2)).to device
          match process_observation (rawObs obs) device state' with
          | none => none
          | some ma_obs' =>
            match run_episodes_instr E pols stochastic_policy gamma device
                estimate_expected_value fuel n s2 ma_obs' state' with
            | none => none
            | some (s3, m3, st3, rest) =>
              some (s3, m3, st3,
                ⟨s, ma_obs, state, ret, initial_state_identifier, s1, none⟩ :: rest)
        else
          let resetRes := E.reset s1 (some state.cpu_numpy)
          let s2 := resetRes.1
          let obs := resetRes.2
          match process_observation (rawObs obs) device state with
          | none => none
          | some ma_obs' =>
            match run_episodes_instr E pols stochastic_policy gamma device
                estimate_expected_value fuel n s2 ma_obs' state with
            | none => none
            | some (s3, m3, st3, rest) =>
              some (s3, m3, st3,
                ⟨s, ma_obs, state, ret, initial_state_identifier, s1,
                  some state.cpu_numpy⟩ :: rest)

/-! ### Helper lemmas -/

theorem mapM_option_some_of_forall {α β : Type} (f : α → Option β) (g : α → β) :
    ∀ l : List α, (∀ a ∈ l, f a = some (g a)) → l.mapM f = some (l.map g) := by
  intro l
  induction l with
  | nil => intro _; rfl
  | cons a l ih =>
    intro h
    rw [List.mapM_cons, h a (by simp), ih (fun x hx => h x (by simp [hx]))]
    rfl

theorem select_action_aux {Act : Type} (ma_obs : ObsMap) (pols : List (Policy Act))
    (e : ExploreArg) :
    ∀ n : Nat,
      (∀ i, i < n → ∃ o p, ma_obs.lookup (toString i) = some o ∧ pols[i]? = some p) →
      ∃ acts : List (String × Act),
        ((List.range n).mapM fun i =>
          match ma_obs.lookup (toString i), pols[i]? with
          | some o, some p => some (toString i, p.compute_single_action o e)
          | _, _ => none) = some acts ∧
        acts.length = n ∧
        ∀ i, i < n → ∀ o p, ma_obs.lookup (toString i) = some o → pols[i]? = some p →
          acts[i]? = some (toString i, p.compute_single_action o e) := by
  intro n
  induction n with
  | zero =>
    intro _
    exact ⟨[], rfl, rfl, fun i hi => absurd hi (by omega)⟩
  | succ n ih =>
    intro h
    obtain ⟨acts, hacts, hlen, hidx⟩ := ih (fun i hi => h i (Nat.lt_succ_of_lt hi))
    obtain ⟨o, p, ho, hp⟩ := h n (Nat.lt_succ_self n)
    refine ⟨acts ++ [(toString n, p.compute_single_action o e)], ?_, ?_, ?_⟩
    · rw [List.range_succ, List.mapM_append, hacts]
      simp [List.mapM, List.mapM.loop, ho, hp]
    · simp [hlen]
    · intro i hi o' p' ho' hp'
      rcases Nat.lt_succ_iff_lt_or_eq.mp hi with hlt | heq
      · rw [List.getElem?_append_left (by omega)]
        exact hidx i hlt o' p' ho' hp'
      · subst heq
        have ho2 : o' = o := Option.some.inj (ho'.symm.trans ho)
        have hp2 : p' = p := Option.some.inj (hp'.symm.trans hp)
        subst ho2; subst hp2
        have hi2 : i = acts.length := hlen.symm
        subst hi2
        simp

theorem process_observation_cons (k : String) (v : ObsVal) (l : ObsMap)
    (device : String) (state : Tensor) :
    process_observation ((k, v) :: l) device state =
      match from_numpy_val v with
      | none => none
      | some a =>
        (process_observation l device state).bind fun rest =>
          some ((k, ObsVal.marshaled ((torch_from_numpy a).to device) state) :: rest) := by
  rw [process_observation, process_observation, List.mapM_cons]
  cases v with
  | raw a =>
    simp only [from_numpy_val]
    cases List.mapM (fun kv =>
        match from_numpy_val kv.2 with
        | none => none
        | some a => some (kv.1, ObsVal.marshaled ((torch_from_numpy a).to device) state)) l with
    | none => rfl
    | some rest => rfl
  | marshaled ob st => rfl

theorem process_observation_spec (device : String) (state : Tensor) :
    ∀ ma_obs out : ObsMap, process_observation ma_obs device state = some out →
      out.length = ma_obs.length ∧
      ∀ i, i < ma_obs.length → ∃ key a,
        ma_obs[i]? = some (key, ObsVal.raw a) ∧
        out[i]? = some (key, ObsVal.marshaled ((torch_from_numpy a).to device) state) := by
  intro ma_obs
  induction ma_obs with
  | nil =>
    intro out h
    simp only [process_observation, List.mapM_nil, Option.pure_def, Option.some.injEq] at h
    subst h
    exact ⟨rfl, fun i hi => absurd hi (by simp)⟩
  | cons kv l ih =>
    intro out h
    obtain ⟨k, v⟩ := kv
    rw [process_observation_cons] at h
    cases v with
    | marshaled ob st => simp [from_numpy_val] at h
    | raw a =>
      simp only [from_numpy_val] at h
      cases hm : process_observation l device state with
      | none => rw [hm] at h; simp at h
      | some rest =>
        rw [hm] at h
        simp only [Option.some_bind, Option.some.injEq] at h
        subst h
        obtain ⟨hlen, hidx⟩ := ih rest hm
        constructor
        · simpa using hlen
        · intro i hi
          cases i with
          | zero => exact ⟨k, a, by simp, by simp⟩
          | succ j =>
            obtain ⟨key, a', h1, h2⟩ := hidx j (by simpa using hi)
            exact ⟨key, a', by simpa using h1, by simpa using h2⟩

/-! ### Claim theorems -/

/-- C4: claimed, the Observation Adapter leaves its input observation
mapping unmodified.  This is false on the code: `process_observation`
reassigns every key of its argument dictionary in place and returns that
same dictionary, so after the call the input mapping holds the marshaled
values, not the original raw arrays.  Concretely, for the one-agent raw
mapping below the argument ends up holding a marshaled value distinct from
the original. -/
theorem process_observation_mutates_input :
    process_observation_arg_after [("0", ObsVal.raw [1])] "cpu" cSt =
      some [("0", ObsVal.marshaled ⟨[1], "cpu"⟩ cSt)] ∧
    some [("0", ObsVal.marshaled ⟨[1], "cpu"⟩ cSt)] ≠
      some ([("0", ObsVal.raw [1])] : ObsMap) :=
  ⟨rfl, by decide⟩

/-- C4 (amended): `process_observation` mutates no environment (it takes
none) and returns the marshaled mapping-of-mappings, with each agent's raw
local observation converted to a tensor on the requested device and the
shared state tensor attached; but it updates its input mapping in place,
so after the call the input mapping equals the returned marshaled mapping
rather than its original value. -/
theorem C4_process_observation_marshal (ma_obs : ObsMap) (device : String)
    (state : Tensor) (out : ObsMap)
    (h : process_observation ma_obs device state = some out) :
    process_observation_arg_after ma_obs device state = some out ∧
    out.length = ma_obs.length ∧
    ∀ i, i < ma_obs.length → ∃ key a,
      ma_obs[i]? = some (key, ObsVal.raw a) ∧
      out[i]? = some (key, ObsVal.marshaled ((torch_from_numpy a).to device) state) :=
  ⟨h, (process_observation_spec device state ma_obs out h).1,
    (process_observation_spec device state ma_obs out h).2⟩

/-- C4 witness: the amended theorem evaluated on a concrete one-agent raw
observation mapping. -/
theorem C4_process_observation_marshal_witness :
    process_observation_arg_after [("0", ObsVal.raw [1])] "cpu" cSt =
      some [("0", ObsVal.marshaled ⟨[1], "cpu"⟩ cSt)] ∧
    ([("0", ObsVal.marshaled ⟨[1], "cpu"⟩ cSt)] : ObsMap).length =
      ([("0", ObsVal.raw [1])] : ObsMap).length :=
  ⟨(C4_process_observation_marshal [("0", ObsVal.raw [1])] "cpu" cSt
      [("0", ObsVal.marshaled ⟨[1], "cpu"⟩ cSt)] rfl).1,
   (C4_process_observation_marshal [("0", ObsVal.raw [1])] "cpu" cSt
      [("0", ObsVal.marshaled ⟨[1], "cpu"⟩ cSt)] rfl).2.1.symm ▸ rfl⟩

/-- C8: with policy sharing enabled, `load_agent_policies` returns exactly
`num_agents` handles that are all the single handle
`get_policy "shared_policy"`, hence pairwise identical; with sharing
disabled it returns one handle per agent, the handle registered under
`policy_i`, in order of increasing agent index. -/
theorem C8_load_agent_policies {Act : Type}
    (load_model : String → String → Checkpoint Act)
    (model_path params_path : String) (num_agents : Nat)
    (_hn : 1 ≤ num_agents) :
    ((load_agent_policies load_model model_path params_path true num_agents).length
        = num_agents ∧
      ∀ p ∈ load_agent_policies load_model model_path params_path true num_agents,
        ∀ q ∈ load_agent_policies load_model model_path params_path true num_agents,
          p = q) ∧
    ((load_agent_policies load_model model_path params_path false num_agents).length
        = num_agents ∧
      ∀ i, i < num_agents →
        (load_agent_policies load_model model_path params_path false num_agents)[i]? =
          some ((load_model model_path params_path).trainer.get_policy
            ("policy_" ++ toString i))) := by
  refine ⟨⟨by simp [load_agent_policies], ?_⟩, ⟨by simp [load_agent_policies], ?_⟩⟩
  · intro p hp q hq
    simp only [load_agent_policies, if_pos, List.mem_map] at hp hq
    obtain ⟨_, _, hp2⟩ := hp
    obtain ⟨_, _, hq2⟩ := hq
    rw [← hp2, ← hq2]
  · intro i hi
    simp [load_agent_policies, List.getElem?_map, List.getElem?_range hi]

/-- C8 witness: the theorem evaluated at the concrete loader `cLoad` with
two agents. -/
theorem C8_load_agent_policies_witness :
    (load_agent_policies cLoad "m" "p" true 2).length = 2 ∧
    (load_agent_policies cLoad "m" "p" false 2)[1]? =
      some ((cLoad "m" "p").trainer.get_policy ("policy_" ++ toString 1)) :=
  ⟨(C8_load_agent_policies cLoad "m" "p" 2 (by omega)).1.1,
   (C8_load_agent_policies cLoad "m" "p" 2 (by omega)).2.2 1 (by omega)⟩

/-- C9: `select_action` applies the run-level mode flag uniformly: when it
succeeds it returns exactly one entry per agent, keyed by the agent's
string-encoded index in increasing order, and every agent's action is
computed with `explore` left absent in stochastic mode and with
`explore=False` in deterministic mode. -/
theorem C9_select_action_uniform_mode {Act : Type} (ma_obs : ObsMap)
    (pols : List (Policy Act)) (num_agents : Nat) (stochastic_policy : Bool)
    (h : ∀ i, i < num_agents →
      ∃ o p, ma_obs.lookup (toString i) = some o ∧ pols[i]? = some p) :
    ∃ acts : List (String × Act),
      select_action ma_obs pols num_agents stochastic_policy = some acts ∧
      acts.length = num_agents ∧
      ∀ i, i < num_agents → ∀ o p,
        ma_obs.lookup (toString i) = some o → pols[i]? = some p →
          acts[i]? = some (toString i, p.compute_single_action o
            (if stochastic_policy then ExploreArg.absent
             else ExploreArg.explicit false)) := by
  cases stochastic_policy with
  | false =>
    simpa [select_action] using
      select_action_aux ma_obs pols (ExploreArg.explicit false) num_agents h
  | true =>
    simpa [select_action] using
      select_action_aux ma_obs pols ExploreArg.absent num_agents h

/-- C9 witness: the theorem evaluated on the concrete two-agent
observation `cObs` and policies `cPols`, in deterministic mode. -/
theorem C9_select_action_uniform_mode_witness :
    (select_action cObs cPols 2 false).map List.length = some 2 := by
  obtain ⟨acts, hacts, hlen, -⟩ :=
    C9_select_action_uniform_mode cObs cPols 2 false
      (fun i hi =>
        match i, hi with
        | 0, _ => ⟨_, cPol, rfl, rfl⟩
        | 1, _ => ⟨_, cPol, rfl, rfl⟩)
  rw [hacts]
  exact congrArg some hlen

theorem run_episode_steps_of_trace {σ Act : Type} (E : EnvSpec σ Act)
    (pols : List (Policy Act)) (stoch : Bool) (gamma : Rat) (device : String) :
    ∀ (fuel : Nat) (s : σ) (m : ObsMap) (tr : List (Rat × Bool)),
      episode_trace E pols stoch device fuel s m = some tr →
      ∀ (ret : Rat) (t : Nat), ∃ s' : σ,
        run_episode_steps E pols stoch gamma device fuel s m ret t =
          some (s', ret + ∑ j ∈ Finset.range tr.length,
            gamma ^ (t + j) * (tr.getD j (0, false)).1) := by
  intro fuel
  induction fuel with
  | zero =>
    intro s m tr h
    simp [episode_trace] at h
  | succ fuel ih =>
    intro s m tr h ret t
    rw [episode_trace] at h
    rw [run_episode_steps]
    cases hsa : select_action m pols E.num_agents stoch with
    | none => rw [hsa] at h; exact absurd h (by simp)
    | some ma_action =>
      rw [hsa] at h
      simp only at h ⊢
      cases ha0 : E.agents[0]? with
      | none => rw [ha0] at h; exact absurd h (by simp)
      | some a0 =>
        rw [ha0] at h
        simp only at h ⊢
        cases hr : (E.step s ma_action).2.2.1.lookup (toString a0.index) with
        | none => rw [hr] at h; exact absurd h (by simp)
        | some r =>
          rw [hr] at h
          simp only at h ⊢
          cases hd : (E.step s ma_action).2.2.2 with
          | true =>
            rw [hd] at h
            simp only [if_true] at h ⊢
            have htr : tr = [(r, true)] := (Option.some.inj h).symm
            subst htr
            refine ⟨(E.step s ma_action).1, ?_⟩
            simp [Finset.sum_range_one]
          | false =>
            rw [hd] at h
            simp only [if_false, Bool.false_eq_true] at h ⊢
            cases hpo : process_observation (rawObs (E.step s ma_action).2.1) device
                ((torch_tensor_f32 (E.get_state (E.step s ma_action).1)).to device) with
            | none => rw [hpo] at h; exact absurd h (by simp)
            | some m' =>
              rw [hpo] at h
              simp only at h ⊢
              cases htr : episode_trace E pols stoch device fuel (E.step s ma_action).1 m' with
              | none => rw [htr] at h; exact absurd h (by simp)
              | some tr' =>
                rw [htr] at h
                have htr2 : tr = (r, false) :: tr' := (Option.some.inj h).symm
                subst htr2
                obtain ⟨s2, hrun⟩ :=
                  ih (E.step s ma_action).1 m' tr' htr (ret + gamma ^ t * r) (t + 1)
                refine ⟨s2, ?_⟩
                rw [hrun]
                have hsum : ∑ j ∈ Finset.range ((r, false) :: tr').length,
                    gamma ^ (t + j) * (((r, false) :: tr').getD j (0, false)).1
                    = (∑ j ∈ Finset.range tr'.length,
                        gamma ^ (t + (j + 1)) * (tr'.getD j (0, false)).1)
                      + gamma ^ (t + 0) * (((r, false) :: tr').getD 0 (0, false)).1 := by
                  rw [List.length_cons]
                  rw [Finset.sum_range_succ'
                    (fun j => gamma ^ (t + j) * (((r, false) :: tr').getD j (0, false)).1)
                    tr'.length]
                  simp [List.getD_cons_succ]
                rw [hsum]
                have hxp : ∀ j : Nat, t + (j + 1) = t + 1 + j := by omega
                have hsum2 : ∑ j ∈ Finset.range tr'.length,
                    gamma ^ (t + (j + 1)) * (tr'.getD j (0, false)).1
                    = ∑ j ∈ Finset.range tr'.length,
                      gamma ^ (t + 1 + j) * (tr'.getD j (0, false)).1 :=
                  Finset.sum_congr rfl fun j _ => by rw [hxp j]
                rw [hsum2]
                congr 1
                simp [List.getD_cons_zero]
                ring

theorem episode_trace_shape {σ Act : Type} (E : EnvSpec σ Act)
    (pols : List (Policy Act)) (stoch : Bool) (device : String) :
    ∀ (fuel : Nat) (s : σ) (m : ObsMap) (tr : List (Rat × Bool)),
      episode_trace E pols stoch device fuel s m = some tr →
      ∃ tr0 r, tr = tr0 ++ [(r, true)] ∧ ∀ x ∈ tr0, x.2 = false := by
  intro fuel
  induction fuel with
  | zero =>
    intro s m tr h
    simp [episode_trace] at h
  | succ fuel ih =>
    intro s m tr h
    rw [episode_trace] at h
    cases hsa : select_action m pols E.num_agents stoch with
    | none => rw [hsa] at h; exact absurd h (by simp)
    | some ma_action =>
      rw [hsa] at h
      simp only at h
      cases ha0 : E.agents[0]? with
      | none => rw [ha0] at h; exact absurd h (by simp)
      | some a0 =>
        rw [ha0] at h
        simp only at h
        cases hr : (E.step s ma_action).2.2.1.lookup (toString a0.index) with
        | none => rw [hr] at h; exact absurd h (by simp)
        | some r =>
          rw [hr] at h
          simp only at h
          cases hd : (E.step s ma_action).2.2.2 with
          | true =>
            rw [hd] at h
            simp only [if_true] at h
            exact ⟨[], r, (Option.some.inj h).symm, by simp⟩
          | false =>
            rw [hd] at h
            simp only [if_false, Bool.false_eq_true] at h
            cases hpo : process_observation (rawObs (E.step s ma_action).2.1) device
                ((torch_tensor_f32 (E.get_state (E.step s ma_action).1)).to device) with
            | none => rw [hpo] at h; exact absurd h (by simp)
            | some m' =>
              rw [hpo] at h
              simp only at h
              cases htr : episode_trace E pols stoch device fuel (E.step s ma_action).1 m' with
              | none => rw [htr] at h; exact absurd h (by simp)
              | some tr' =>
                rw [htr] at h
                obtain ⟨tr0, r', heq, hall⟩ := ih (E.step s ma_action).1 m' tr' htr
                refine ⟨(r, false) :: tr0, r', ?_, ?_⟩
                · rw [← Option.some.inj h, heq]
                  rfl
                · intro x hx
                  rcases List.mem_cons.mp hx with h1 | h2
                  · rw [h1]
                  · exact hall x h2

theorem run_episode_steps_congr_rewards {σ Act : Type} (E₁ E₂ : EnvSpec σ Act)
    (pols : List (Policy Act)) (stoch : Bool) (gamma : Rat) (device : String)
    (hna : E₂.num_agents = E₁.num_agents) (hag : E₂.agents = E₁.agents)
    (hgs : ∀ s : σ, E₂.get_state s = E₁.get_state s)
    (hstep : ∀ (s : σ) (a : List (String × Act)),
      (E₂.step s a).1 = (E₁.step s a).1 ∧
      (E₂.step s a).2.1 = (E₁.step s a).2.1 ∧
      (E₂.step s a).2.2.2 = (E₁.step s a).2.2.2 ∧
      ∀ a0 : Agent, E₁.agents[0]? = some a0 →
        (E₂.step s a).2.2.1.lookup (toString a0.index) =
          (E₁.step s a).2.2.1.lookup (toString a0.index)) :
    ∀ (fuel : Nat) (s : σ) (m : ObsMap) (ret : Rat) (t : Nat),
      run_episode_steps E₂ pols stoch gamma device fuel s m ret t =
        run_episode_steps E₁ pols stoch gamma device fuel s m ret t := by
  intro fuel
  induction fuel with
  | zero => intro s m ret t; rfl
  | succ fuel ih =>
    intro s m ret t
    rw [run_episode_steps, run_episode_steps, hna, hag]
    cases hsa : select_action m pols E₁.num_agents stoch with
    | none => rfl
    | some ma_action =>
      simp only
      obtain ⟨h1, h2, h3, h4⟩ := hstep s ma_action
      cases ha0 : E₁.agents[0]? with
      | none => rfl
      | some a0 =>
        simp only
        rw [h4 a0 ha0]
        cases hr : (E₁.step s ma_action).2.2.1.lookup (toString a0.index) with
        | none => rfl
        | some r =>
          simp only
          rw [h3]
          cases hd : (E₁.step s ma_action).2.2.2 with
          | true =>
            simp only [if_true]
            rw [h1]
          | false =>
            simp only [if_false, Bool.false_eq_true]
            rw [h1, h2, hgs ((E₁.step s ma_action).1)]
            cases hpo : process_observation (rawObs (E₁.step s ma_action).2.1) device
                ((torch_tensor_f32 (E₁.get_state (E₁.step s ma_action).1)).to device) with
            | none => rfl
            | some m' =>
              simp only
              exact ih (E₁.step s ma_action).1 m' (ret + gamma ^ t * r) (t + 1)

/-- C2: whenever the environment's step calls of an episode yield the
trace `tr` (whose first components are agent 0's rewards
`r_0, …, r_\x7bT-1\x7d`), the accumulated episode return equals
`∑ gamma ^ t * r_t` with the exponent starting at 0 and incrementing by 1
per step; and replacing the environment by one that differs only in the
rewards of agents other than agent 0 leaves the episode result, return
included, unchanged. -/
theorem C2_discounted_return {σ Act : Type} (E E' : EnvSpec σ Act)
    (pols : List (Policy Act)) (stoch : Bool) (gamma : Rat) (device : String)
    (fuel : Nat) (s : σ) (m : ObsMap) (tr : List (Rat × Bool)) (sf : σ) (R : Rat)
    (htr : episode_trace E pols stoch device fuel s m = some tr)
    (hrun : run_episode_steps E pols stoch gamma device fuel s m 0 0 = some (sf, R))
    (hna : E'.num_agents = E.num_agents) (hag : E'.agents = E.agents)
    (hgs : ∀ s : σ, E'.get_state s = E.get_state s)
    (hstep : ∀ (s : σ) (a : List (String × Act)),
      (E'.step s a).1 = (E.step s a).1 ∧
      (E'.step s a).2.1 = (E.step s a).2.1 ∧
      (E'.step s a).2.2.2 = (E.step s a).2.2.2 ∧
      ∀ a0 : Agent, E.agents[0]? = some a0 →
        (E'.step s a).2.2.1.lookup (toString a0.index) =
          (E.step s a).2.2.1.lookup (toString a0.index)) :
    R = (∑ j ∈ Finset.range tr.length, gamma ^ j * (tr.getD j (0, false)).1) ∧
    run_episode_steps E' pols stoch gamma device fuel s m 0 0 = some (sf, R) := by
  constructor
  · obtain ⟨s2, h2⟩ :=
      run_episode_steps_of_trace E pols stoch gamma device fuel s m tr htr 0 0
    have h3 := Option.some.inj (hrun.symm.trans h2)
    have hR : R = 0 + ∑ j ∈ Finset.range tr.length,
        gamma ^ (0 + j) * (tr.getD j (0, false)).1 := congrArg Prod.snd h3
    rw [hR]
    simp [Nat.zero_add]
  · rw [run_episode_steps_congr_rewards E E' pols stoch gamma device hna hag hgs hstep]
    exact hrun

/-- C3: the per-episode loop performs exactly one reward accumulation per
environment step: the trace of step calls consists of zero or more
not-done steps followed by a single final step whose done flag is true (so
the loop stops at the first done step and performs no step after it), and
the return accumulates one discounted term per trace entry, the final
done step's reward included. -/
theorem C3_episode_stops_at_first_done {σ Act : Type} (E : EnvSpec σ Act)
    (pols : List (Policy Act)) (stoch : Bool) (gamma : Rat) (device : String)
    (fuel : Nat) (s : σ) (m : ObsMap) (tr : List (Rat × Bool)) (sf : σ) (R : Rat)
    (htr : episode_trace E pols stoch device fuel s m = some tr)
    (hrun : run_episode_steps E pols stoch gamma device fuel s m 0 0 = some (sf, R)) :
    (∃ tr0 r, tr = tr0 ++ [(r, true)] ∧ ∀ x ∈ tr0, x.2 = false) ∧
    R = ∑ j ∈ Finset.range tr.length, gamma ^ j * (tr.getD j (0, false)).1 := by
  constructor
  · exact episode_trace_shape E pols stoch device fuel s m tr htr
  · obtain ⟨s2, h2⟩ :=
      run_episode_steps_of_trace E pols stoch gamma device fuel s m tr htr 0 0
    have h3 := Option.some.inj (hrun.symm.trans h2)
    have hR : R = 0 + ∑ j ∈ Finset.range tr.length,
        gamma ^ (0 + j) * (tr.getD j (0, false)).1 := congrArg Prod.snd h3
    rw [hR]
    simp [Nat.zero_add]

/-- C2 witness: three unit rewards under discount 99/100 give return
29701/10000 = 2.9701, and changing agent 1's reward (environment `cEnv'`)
leaves the result unchanged. -/
theorem C2_discounted_return_witness :
    (29701 / 10000 : Rat) =
      (∑ j ∈ Finset.range ([(1, false), (1, false), (1, true)] : List (Rat × Bool)).length,
        (99 / 100 : Rat) ^ j *
          (([(1, false), (1, false), (1, true)] : List (Rat × Bool)).getD j (0, false)).1) ∧
    run_episode_steps cEnv' cPols false (99 / 100) "cpu" 5 0 cObs 0 0 =
      some (3, 29701 / 10000) := by
  have h1 : run_episode_steps cEnv cPols false (99 / 100 : Rat) "cpu" 5 0 cObs 0 0 =
      some (3, 0 + (99 / 100 : Rat) ^ 0 * 1 + (99 / 100 : Rat) ^ (0 + 1) * 1
        + (99 / 100 : Rat) ^ (0 + 1 + 1) * 1) := rfl
  have hrun : run_episode_steps cEnv cPols false (99 / 100 : Rat) "cpu" 5 0 cObs 0 0 =
      some (3, 29701 / 10000) := by rw [h1]; norm_num
  exact C2_discounted_return cEnv cEnv' cPols false (99 / 100) "cpu" 5 0 cObs
    [(1, false), (1, false), (1, true)] 3 (29701 / 10000) rfl hrun rfl rfl (fun _ => rfl)
    (fun s a => ⟨rfl, rfl, rfl, fun a0 ha0 => by
      have ha : a0 = Agent.mk 0 := by simpa [cEnv] using ha0.symm
      subst ha
      rfl⟩)

/-- C3 witness: the concrete three-step episode's trace is two not-done
steps followed by the done step, and its return sums all three discounted
rewards. -/
theorem C3_episode_stops_at_first_done_witness :
    (∃ tr0 r, ([(1, false), (1, false), (1, true)] : List (Rat × Bool))
        = tr0 ++ [(r, true)] ∧ ∀ x ∈ tr0, x.2 = false) ∧
    (29701 / 10000 : Rat) =
      ∑ j ∈ Finset.range ([(1, false), (1, false), (1, true)] : List (Rat × Bool)).length,
        (99 / 100 : Rat) ^ j *
          (([(1, false), (1, false), (1, true)] : List (Rat × Bool)).getD j (0, false)).1 := by
  have h1 : run_episode_steps cEnv cPols false (99 / 100 : Rat) "cpu" 5 0 cObs 0 0 =
      some (3, 0 + (99 / 100 : Rat) ^ 0 * 1 + (99 / 100 : Rat) ^ (0 + 1) * 1
        + (99 / 100 : Rat) ^ (0 + 1 + 1) * 1) := rfl
  have hrun : run_episode_steps cEnv cPols false (99 / 100 : Rat) "cpu" 5 0 cObs 0 0 =
      some (3, 29701 / 10000) := by rw [h1]; norm_num
  exact C3_episode_stops_at_first_done cEnv cPols false (99 / 100) "cpu" 5 0 cObs
    [(1, false), (1, false), (1, true)] 3 (29701 / 10000) rfl hrun

theorem run_episodes_instr_succ_inv {σ Act : Type} (E : EnvSpec σ Act)
    (pols : List (Policy Act)) (stoch : Bool) (gamma : Rat) (device : String)
    (eev : Bool) (fuel : Nat) (n : Nat) (s : σ) (m : ObsMap) (st : Tensor)
    (s' : σ) (m' : ObsMap) (st' : Tensor) (recs : List (EpisodeRecord σ))
    (h : run_episodes_instr E pols stoch gamma device eev fuel (n + 1) s m st =
      some (s', m', st', recs)) :
    ∃ s1 ret ident rest,
      run_episode_steps E pols stoch gamma device fuel s m 0 0 = some (s1, ret) ∧
      pick_identifier E.initial_fire_size
        (E.get_state_interpretation st.cpu_numpy) = some ident ∧
      ((eev = true ∧ ∃ mObs,
          process_observation (rawObs (E.reset s1 none).2) device
            ((torch_tensor_f32 (E.get_state (E.reset s1 none).1)).to device) = some mObs ∧
          run_episodes_instr E pols stoch gamma device eev fuel n
            (E.reset s1 none).1 mObs
            ((torch_tensor_f32 (E.get_state (E.reset s1 none).1)).to device) =
            some (s', m', st', rest) ∧
          recs = ⟨s, m, st, ret, ident, s1, none⟩ :: rest) ∨
       (eev = false ∧ ∃ mObs,
          process_observation (rawObs (E.reset s1 (some st.cpu_numpy)).2) device st =
            some mObs ∧
          run_episodes_instr E pols stoch gamma device eev fuel n
            (E.reset s1 (some st.cpu_numpy)).1 mObs st = some (s', m', st', rest) ∧
          recs = ⟨s, m, st, ret, ident, s1, some st.cpu_numpy⟩ :: rest)) := by
  rw [run_episodes_instr] at h
  cases hst : run_episode_steps E pols stoch gamma device fuel s m 0 0 with
  | none => rw [hst] at h; exact absurd h (by simp)
  | some p =>
    obtain ⟨s1, ret⟩ := p
    rw [hst] at h
    simp only at h
    cases hpi : pick_identifier E.initial_fire_size
        (E.get_state_interpretation st.cpu_numpy) with
    | none => rw [hpi] at h; exact absurd h (by simp)
    | some ident =>
      rw [hpi] at h
      simp only at h
      cases eev with
      | true =>
        simp only [if_true] at h
        cases hpo : process_observation (rawObs (E.reset s1 none).2) device
            ((torch_tensor_f32 (E.get_state (E.reset s1 none).1)).to device) with
        | none => rw [hpo] at h; exact absurd h (by simp)
        | some mObs =>
          rw [hpo] at h
          simp only at h
          cases hrec : run_episodes_instr E pols stoch gamma device true fuel n
              (E.reset s1 none).1 mObs
              ((torch_tensor_f32 (E.get_state (E.reset s1 none).1)).to device) with
          | none => rw [hrec] at h; exact absurd h (by simp)
          | some q =>
            obtain ⟨s3, m3, st3, rest⟩ := q
            rw [hrec] at h
            simp only [Option.some.injEq, Prod.mk.injEq] at h
            obtain ⟨hs3, hm3, hst3, hrecs⟩ := h
            subst hs3; subst hm3; subst hst3
            exact ⟨s1, ret, ident, rest, rfl, rfl, Or.inl ⟨rfl, mObs, hpo, hrec, hrecs.symm⟩⟩
      | false =>
        simp only [if_false, Bool.false_eq_true] at h
        cases hpo : process_observation (rawObs (E.reset s1 (some st.cpu_numpy)).2)
            device st with
        | none => rw [hpo] at h; exact absurd h (by simp)
        | some mObs =>
          rw [hpo] at h
          simp only at h
          cases hrec : run_episodes_instr E pols stoch gamma device false fuel n
              (E.reset s1 (some st.cpu_numpy)).1 mObs st with
          | none => rw [hrec] at h; exact absurd h (by simp)
          | some q =>
            obtain ⟨s3, m3, st3, rest⟩ := q
            rw [hrec] at h
            simp only [Option.some.injEq, Prod.mk.injEq] at h
            obtain ⟨hs3, hm3, hst3, hrecs⟩ := h
            subst hs3; subst hm3; subst hst3
            exact ⟨s1, ret, ident, rest, rfl, rfl, Or.inr ⟨rfl, mObs, hpo, hrec, hrecs.symm⟩⟩

theorem run_episodes_loop_eq_instr {σ Act : Type} (E : EnvSpec σ Act)
    (pols : List (Policy Act)) (stoch : Bool) (gamma : Rat) (device : String)
    (eev : Bool) (fuel : Nat) :
    ∀ (n : Nat) (s : σ) (m : ObsMap) (st : Tensor),
      run_episodes_loop E pols stoch gamma device eev fuel n s m st =
        (run_episodes_instr E pols stoch gamma device eev fuel n s m st).map
          (fun r => (r.1, r.2.1, r.2.2.1,
            r.2.2.2.map fun rec => (rec.ret, rec.identifier))) := by
  intro n
  induction n with
  | zero => intro s m st; rfl
  | succ n ih =>
    intro s m st
    rw [run_episodes_loop, run_episodes_instr]
    cases hst : run_episode_steps E pols stoch gamma device fuel s m 0 0 with
    | none => rfl
    | some p =>
      obtain ⟨s1, ret⟩ := p
      simp only
      cases hpi : pick_identifier E.initial_fire_size
          (E.get_state_interpretation st.cpu_numpy) with
      | none => rfl
      | some ident =>
        simp only
        cases eev with
        | true =>
          simp only [if_true]
          cases hpo : process_observation (rawObs (E.reset s1 none).2) device
              ((torch_tensor_f32 (E.get_state (E.reset s1 none).1)).to device) with
          | none => rfl
          | some mObs =>
            simp only
            rw [ih]
            cases hrec : run_episodes_instr E pols stoch gamma device true fuel n
                (E.reset s1 none).1 mObs
                ((torch_tensor_f32 (E.get_state (E.reset s1 none).1)).to device) with
            | none => rfl
            | some q =>
              obtain ⟨s3, m3, st3, rest⟩ := q
              rfl
        | false =>
          simp only [if_false, Bool.false_eq_true]
          cases hpo : process_observation (rawObs (E.reset s1 (some st.cpu_numpy)).2)
              device st with
          | none => rfl
          | some mObs =>
            simp only
            rw [ih]
            cases hrec : run_episodes_instr E pols stoch gamma device false fuel n
                (E.reset s1 (some st.cpu_numpy)).1 mObs st with
            | none => rfl
            | some q =>
              obtain ⟨s3, m3, st3, rest⟩ := q
              rfl

theorem run_episodes_instr_length {σ Act : Type} (E : EnvSpec σ Act)
    (pols : List (Policy Act)) (stoch : Bool) (gamma : Rat) (device : String)
    (eev : Bool) (fuel : Nat) :
    ∀ (n : Nat) (s : σ) (m : ObsMap) (st : Tensor) (s' : σ) (m' : ObsMap)
      (st' : Tensor) (recs : List (EpisodeRecord σ)),
      run_episodes_instr E pols stoch gamma device eev fuel n s m st =
        some (s', m', st', recs) →
      recs.length = n := by
  intro n
  induction n with
  | zero =>
    intro s m st s' m' st' recs h
    rw [run_episodes_instr] at h
    simp only [Option.some.injEq, Prod.mk.injEq] at h
    obtain ⟨-, -, -, hrecs⟩ := h
    rw [← hrecs]
    rfl
  | succ n ih =>
    intro s m st s' m' st' recs h
    obtain ⟨s1, ret, ident, rest, -, -, hcase⟩ :=
      run_episodes_instr_succ_inv E pols stoch gamma device eev fuel n s m st
        s' m' st' recs h
    rcases hcase with ⟨-, mObs, -, hrec, hrecs⟩ | ⟨-, mObs, -, hrec, hrecs⟩ <;>
      (subst hrecs; simp [ih _ _ _ _ _ _ _ hrec])

theorem run_episodes_instr_ident {σ Act : Type} (E : EnvSpec σ Act)
    (pols : List (Policy Act)) (stoch : Bool) (gamma : Rat) (device : String)
    (eev : Bool) (fuel : Nat) :
    ∀ (n : Nat) (s : σ) (m : ObsMap) (st : Tensor) (s' : σ) (m' : ObsMap)
      (st' : Tensor) (recs : List (EpisodeRecord σ)),
      run_episodes_instr E pols stoch gamma device eev fuel n s m st =
        some (s', m', st', recs) →
      ∀ rec ∈ recs, pick_identifier E.initial_fire_size
        (E.get_state_interpretation rec.start_state.cpu_numpy) = some rec.identifier := by
  intro n
  induction n with
  | zero =>
    intro s m st s' m' st' recs h
    rw [run_episodes_instr] at h
    simp only [Option.some.injEq, Prod.mk.injEq] at h
    obtain ⟨-, -, -, hrecs⟩ := h
    rw [← hrecs]
    intro rec hrec
    exact absurd hrec (by simp)
  | succ n ih =>
    intro s m st s' m' st' recs h
    obtain ⟨s1, ret, ident, rest, -, hpi, hcase⟩ :=
      run_episodes_instr_succ_inv E pols stoch gamma device eev fuel n s m st
        s' m' st' recs h
    rcases hcase with ⟨-, mObs, -, hrec, hrecs⟩ | ⟨-, mObs, -, hrec, hrecs⟩ <;>
    · subst hrecs
      intro rec hmem
      rcases List.mem_cons.mp hmem with hhd | htl
      · subst hhd
        exact hpi
      · exact ih _ _ _ _ _ _ _ hrec rec htl

theorem run_episodes_instr_fixed_inv {σ Act : Type} (E : EnvSpec σ Act)
    (pols : List (Policy Act)) (stoch : Bool) (gamma : Rat) (device : String)
    (fuel : Nat) :
    ∀ (n : Nat) (s : σ) (m : ObsMap) (st : Tensor) (s' : σ) (m' : ObsMap)
      (st' : Tensor) (recs : List (EpisodeRecord σ)),
      run_episodes_instr E pols stoch gamma device false fuel n s m st =
        some (s', m', st', recs) →
      st' = st ∧ ∀ rec ∈ recs,
        rec.start_state = st ∧ rec.reset_arg = some st.cpu_numpy := by
  intro n
  induction n with
  | zero =>
    intro s m st s' m' st' recs h
    rw [run_episodes_instr] at h
    simp only [Option.some.injEq, Prod.mk.injEq] at h
    obtain ⟨-, -, hst', hrecs⟩ := h
    refine ⟨hst'.symm, ?_⟩
    rw [← hrecs]
    intro rec hrec
    exact absurd hrec (by simp)
  | succ n ih =>
    intro s m st s' m' st' recs h
    obtain ⟨s1, ret, ident, rest, -, -, hcase⟩ :=
      run_episodes_instr_succ_inv E pols stoch gamma device false fuel n s m st
        s' m' st' recs h
    rcases hcase with ⟨habs, -⟩ | ⟨-, mObs, -, hrec, hrecs⟩
    · exact absurd habs (by simp)
    · subst hrecs
      obtain ⟨hst', hall⟩ := ih _ _ _ _ _ _ _ hrec
      refine ⟨hst', ?_⟩
      intro rec hmem
      rcases List.mem_cons.mp hmem with hhd | htl
      · subst hhd
        exact ⟨rfl, rfl⟩
      · exact hall rec htl

theorem process_observation_values (device : String) (state : Tensor) :
    ∀ mm out : ObsMap, process_observation mm device state = some out →
      ∀ kv ∈ out, ∃ ob, kv.2 = ObsVal.marshaled ob state := by
  intro mm
  induction mm with
  | nil =>
    intro out h
    simp only [process_observation, List.mapM_nil, Option.pure_def, Option.some.injEq] at h
    subst h
    intro kv hkv
    exact absurd hkv (by simp)
  | cons kv0 l ih =>
    intro out h
    obtain ⟨k, v⟩ := kv0
    rw [process_observation_cons] at h
    cases v with
    | marshaled ob st => simp [from_numpy_val] at h
    | raw a =>
      simp only [from_numpy_val] at h
      cases hm : process_observation l device state with
      | none => rw [hm] at h; simp at h
      | some rest =>
        rw [hm] at h
        simp only [Option.some_bind, Option.some.injEq] at h
        subst h
        intro kv hkv
        rcases List.mem_cons.mp hkv with hhd | htl
        · subst hhd
          exact ⟨(torch_from_numpy a).to device, rfl⟩
        · exact ih rest hm kv htl

theorem run_episodes_instr_fixed_obs {σ Act : Type} (E : EnvSpec σ Act)
    (pols : List (Policy Act)) (stoch : Bool) (gamma : Rat) (device : String)
    (fuel : Nat) :
    ∀ (n : Nat) (s : σ) (m : ObsMap) (st : Tensor) (s' : σ) (m' : ObsMap)
      (st' : Tensor) (recs : List (EpisodeRecord σ)),
      run_episodes_instr E pols stoch gamma device false fuel n s m st =
        some (s', m', st', recs) →
      (∀ kv ∈ m, ∃ ob, kv.2 = ObsVal.marshaled ob st) →
      ∀ rec ∈ recs, ∀ kv ∈ rec.start_obs, ∃ ob, kv.2 = ObsVal.marshaled ob st := by
  intro n
  induction n with
  | zero =>
    intro s m st s' m' st' recs h hm
    rw [run_episodes_instr] at h
    simp only [Option.some.injEq, Prod.mk.injEq] at h
    obtain ⟨-, -, -, hrecs⟩ := h
    rw [← hrecs]
    intro rec hrec
    exact absurd hrec (by simp)
  | succ n ih =>
    intro s m st s' m' st' recs h hm
    obtain ⟨s1, ret, ident, rest, -, -, hcase⟩ :=
      run_episodes_instr_succ_inv E pols stoch gamma device false fuel n s m st
        s' m' st' recs h
    rcases hcase with ⟨habs, -⟩ | ⟨-, mObs, hpo, hrec, hrecs⟩
    · exact absurd habs (by simp)
    · subst hrecs
      intro rec hmem
      rcases List.mem_cons.mp hmem with hhd | htl
      · subst hhd
        exact hm
      · exact ih _ _ _ _ _ _ _ hrec
          (process_observation_values device st _ mObs hpo) rec htl

theorem run_episodes_instr_chain_fixed {σ Act : Type} (E : EnvSpec σ Act)
    (pols : List (Policy Act)) (stoch : Bool) (gamma : Rat) (device : String)
    (fuel : Nat) (dflt : EpisodeRecord σ) :
    ∀ (n : Nat) (s : σ) (m : ObsMap) (st : Tensor) (s' : σ) (m' : ObsMap)
      (st' : Tensor) (recs : List (EpisodeRecord σ)),
      run_episodes_instr E pols stoch gamma device false fuel n s m st =
        some (s', m', st', recs) →
      (0 < recs.length →
        (recs.getD 0 dflt).start_env = s ∧ (recs.getD 0 dflt).start_obs = m ∧
        (recs.getD 0 dflt).start_state = st) ∧
      (∀ k, k + 1 < recs.length →
        (recs.getD (k + 1) dflt).start_env =
          (E.reset (recs.getD k dflt).end_env
            (some (recs.getD k dflt).start_state.cpu_numpy)).1 ∧
        (recs.getD (k + 1) dflt).start_state = (recs.getD k dflt).start_state ∧
        process_observation
          (rawObs (E.reset (recs.getD k dflt).end_env
            (some (recs.getD k dflt).start_state.cpu_numpy)).2)
          device (recs.getD k dflt).start_state =
          some ((recs.getD (k + 1) dflt).start_obs)) := by
  intro n
  induction n with
  | zero =>
    intro s m st s' m' st' recs h
    rw [run_episodes_instr] at h
    simp only [Option.some.injEq, Prod.mk.injEq] at h
    obtain ⟨-, -, -, hrecs⟩ := h
    rw [← hrecs]
    exact ⟨fun hh => absurd hh (by simp), fun k hk => absurd hk (by simp)⟩
  | succ n ih =>
    intro s m st s' m' st' recs h
    obtain ⟨s1, ret, ident, rest, -, -, hcase⟩ :=
      run_episodes_instr_succ_inv E pols stoch gamma device false fuel n s m st
        s' m' st' recs h
    rcases hcase with ⟨habs, -⟩ | ⟨-, mObs, hpo, hrec, hrecs⟩
    · exact absurd habs (by simp)
    · subst hrecs
      obtain ⟨ihhead, ihadj⟩ := ih _ _ _ _ _ _ _ hrec
      constructor
      · intro _
        exact ⟨rfl, rfl, rfl⟩
      · intro k hk
        cases k with
        | zero =>
          have hrest : 0 < rest.length := by
            simpa using hk
          obtain ⟨he, ho, hs⟩ := ihhead hrest
          refine ⟨?_, ?_, ?_⟩
          · simpa [List.getD_cons_succ, List.getD_cons_zero] using he
          · simp only [List.getD_cons_succ, List.getD_cons_zero]
            exact hs
          · simp only [List.getD_cons_succ, List.getD_cons_zero]
            rw [ho]
            exact hpo
        | succ j =>
          have hj : j + 1 < rest.length := by
            simpa using hk
          obtain ⟨he, hs, ho⟩ := ihadj j hj
          exact ⟨by simpa [List.getD_cons_succ] using he,
            by simpa [List.getD_cons_succ] using hs,
            by simpa [List.getD_cons_succ] using ho⟩

theorem run_episodes_instr_chain_sampled {σ Act : Type} (E : EnvSpec σ Act)
    (pols : List (Policy Act)) (stoch : Bool) (gamma : Rat) (device : String)
    (fuel : Nat) (dflt : EpisodeRecord σ) :
    ∀ (n : Nat) (s : σ) (m : ObsMap) (st : Tensor) (s' : σ) (m' : ObsMap)
      (st' : Tensor) (recs : List (EpisodeRecord σ)),
      run_episodes_instr E pols stoch gamma device true fuel n s m st =
        some (s', m', st', recs) →
      (0 < recs.length →
        (recs.getD 0 dflt).start_env = s ∧ (recs.getD 0 dflt).start_obs = m ∧
        (recs.getD 0 dflt).start_state = st) ∧
      (∀ k, k + 1 < recs.length →
        (recs.getD (k + 1) dflt).start_env =
          (E.reset (recs.getD k dflt).end_env none).1 ∧
        (recs.getD (k + 1) dflt).start_state =
          (torch_tensor_f32 (E.get_state
            (E.reset (recs.getD k dflt).end_env none).1)).to device ∧
        process_observation (rawObs (E.reset (recs.getD k dflt).end_env none).2)
          device ((recs.getD (k + 1) dflt).start_state) =
          some ((recs.getD (k + 1) dflt).start_obs)) := by
  intro n
  induction n with
  | zero =>
    intro s m st s' m' st' recs h
    rw [run_episodes_instr] at h
    simp only [Option.some.injEq, Prod.mk.injEq] at h
    obtain ⟨-, -, -, hrecs⟩ := h
    rw [← hrecs]
    exact ⟨fun hh => absurd hh (by simp), fun k hk => absurd hk (by simp)⟩
  | succ n ih =>
    intro s m st s' m' st' recs h
    obtain ⟨s1, ret, ident, rest, -, -, hcase⟩ :=
      run_episodes_instr_succ_inv E pols stoch gamma device true fuel n s m st
        s' m' st' recs h
    rcases hcase with ⟨-, mObs, hpo, hrec, hrecs⟩ | ⟨habs, -⟩
    · subst hrecs
      obtain ⟨ihhead, ihadj⟩ := ih _ _ _ _ _ _ _ hrec
      constructor
      · intro _
        exact ⟨rfl, rfl, rfl⟩
      · intro k hk
        cases k with
        | zero =>
          have hrest : 0 < rest.length := by
            simpa using hk
          obtain ⟨he, ho, hs⟩ := ihhead hrest
          refine ⟨?_, ?_, ?_⟩
          · simpa [List.getD_cons_succ, List.getD_cons_zero] using he
          · simp only [List.getD_cons_succ, List.getD_cons_zero]
            exact hs
          · simp only [List.getD_cons_succ, List.getD_cons_zero]
            rw [hs, ho]
            exact hpo
        | succ j =>
          have hj : j + 1 < rest.length := by
            simpa using hk
          obtain ⟨he, hs, ho⟩ := ihadj j hj
          exact ⟨by simpa [List.getD_cons_succ] using he,
            by simpa [List.getD_cons_succ] using hs,
            by simpa [List.getD_cons_succ] using ho⟩
    · exact absurd habs (by simp)

/-- A default episode record over environment-state type `Nat`, used only
to instantiate `List.getD` in concrete statements. -/
def cRec : EpisodeRecord Nat :=
  ⟨0, [], cSt, 0, (0, 0), 0, none⟩

/-- C1: the identifier recorded for every completed episode is obtained by
indexing the fire-cell-position list of that episode's initial raw state
at `(initial_fire_size ^ 2 - 1) / 2` when `initial_fire_size` is odd and
at `0` when it is even; and `run_episodes` returns exactly the
`(return, identifier)` projections of the per-episode records. -/
theorem C1_identifier_rule {σ Act : Type} (num_episodes : Nat) (E : EnvSpec σ Act)
    (env0 : σ) (gamma : Rat) (m : ObsMap) (st : Tensor) (device : String)
    (load_model : String → String → Checkpoint Act) (model_path params_path : String)
    (shared_policy stochastic_policy estimate_expected_value : Bool) (fuel : Nat)
    (s' : σ) (m' : ObsMap) (st' : Tensor) (recs : List (EpisodeRecord σ))
    (h : run_episodes_instr E
      (load_agent_policies load_model model_path params_path shared_policy E.num_agents)
      stochastic_policy gamma device estimate_expected_value fuel num_episodes
      env0 m st = some (s', m', st', recs)) :
    run_episodes num_episodes E env0 gamma m st device load_model model_path
      params_path shared_policy stochastic_policy estimate_expected_value fuel =
      some (recs.map fun rec => (rec.ret, rec.identifier)) ∧
    ∀ rec ∈ recs,
      (E.initial_fire_size % 2 = 1 →
        (E.get_state_interpretation rec.start_state.cpu_numpy)[(E.initial_fire_size ^ 2 - 1) / 2]?
          = some rec.identifier) ∧
      (E.initial_fire_size % 2 = 0 →
        (E.get_state_interpretation rec.start_state.cpu_numpy)[0]? = some rec.identifier) := by
  constructor
  · simp only [run_episodes]
    rw [run_episodes_loop_eq_instr, h]
    rfl
  · intro rec hrec
    have hpick := run_episodes_instr_ident E
      (load_agent_policies load_model model_path params_path shared_policy E.num_agents)
      stochastic_policy gamma device estimate_expected_value fuel num_episodes
      env0 m st s' m' st' recs h rec hrec
    rw [pick_identifier] at hpick
    constructor
    · intro hodd
      rw [if_neg (by omega)] at hpick
      exact hpick
    · intro heven
      rw [if_pos heven] at hpick
      exact hpick

/-- C5: whenever `run_episodes` completes (every episode's step loop
reaches a done flag within the fuel), the returned list holds exactly one
record per requested episode, in both reset modes. -/
theorem C5_output_length {σ Act : Type} (num_episodes : Nat) (E : EnvSpec σ Act)
    (env0 : σ) (gamma : Rat) (m : ObsMap) (st : Tensor) (device : String)
    (load_model : String → String → Checkpoint Act) (model_path params_path : String)
    (shared_policy stochastic_policy estimate_expected_value : Bool) (fuel : Nat)
    (out : List (Rat × (Int × Int)))
    (h : run_episodes num_episodes E env0 gamma m st device load_model model_path
      params_path shared_policy stochastic_policy estimate_expected_value fuel =
      some out) :
    out.length = num_episodes := by
  simp only [run_episodes] at h
  rw [run_episodes_loop_eq_instr] at h
  cases hin : run_episodes_instr E
      (load_agent_policies load_model model_path params_path shared_policy E.num_agents)
      stochastic_policy gamma device estimate_expected_value fuel num_episodes
      env0 m st with
  | none => rw [hin] at h; exact absurd h (by simp)
  | some q =>
    obtain ⟨s3, m3, st3, recs⟩ := q
    rw [hin] at h
    have hout : recs.map (fun rec => (rec.ret, rec.identifier)) = out :=
      Option.some.inj h
    rw [← hout, List.length_map]
    exact run_episodes_instr_length E
      (load_agent_policies load_model model_path params_path shared_policy E.num_agents)
      stochastic_policy gamma device estimate_expected_value fuel num_episodes
      env0 m st s3 m3 st3 recs hin

/-- C6: in fixed-start mode the `state` variable is invariant across the
whole run, so the raw state passed to every reset call equals (element for
element) the state the episode started from, which is the initial state
the runner was given. -/
theorem C6_fixed_start_reset_state {σ Act : Type} (E : EnvSpec σ Act)
    (pols : List (Policy Act)) (stoch : Bool) (gamma : Rat) (device : String)
    (fuel n : Nat) (env0 : σ) (m : ObsMap) (st : Tensor) (s' : σ) (m' : ObsMap)
    (st' : Tensor) (recs : List (EpisodeRecord σ))
    (h : run_episodes_instr E pols stoch gamma device false fuel n env0 m st =
      some (s', m', st', recs)) :
    st' = st ∧ ∀ rec ∈ recs,
      rec.reset_arg = some rec.start_state.cpu_numpy ∧ rec.start_state = st := by
  obtain ⟨h1, h2⟩ := run_episodes_instr_fixed_inv E pols stoch gamma device fuel
    n env0 m st s' m' st' recs h
  refine ⟨h1, fun rec hrec => ?_⟩
  obtain ⟨hs, hr⟩ := h2 rec hrec
  exact ⟨by rw [hs]; exact hr, hs⟩

/-- C7: every episode's recorded identifier is derived, via the
odd-or-even indexing rule, from the raw state the episode began with: the
runner's input state for the first episode, and thereafter the unchanged
state in fixed-start mode or the state re-queried after the previous
episode's reset in sampled-start mode — never an episode's final state. -/
theorem C7_identifier_from_episode_start {σ Act : Type} (E : EnvSpec σ Act)
    (pols : List (Policy Act)) (stoch : Bool) (gamma : Rat) (device : String)
    (eev : Bool) (fuel n : Nat) (env0 : σ) (m : ObsMap) (st : Tensor) (s' : σ)
    (m' : ObsMap) (st' : Tensor) (recs : List (EpisodeRecord σ))
    (dflt : EpisodeRecord σ)
    (h : run_episodes_instr E pols stoch gamma device eev fuel n env0 m st =
      some (s', m', st', recs)) :
    (∀ rec ∈ recs, pick_identifier E.initial_fire_size
      (E.get_state_interpretation rec.start_state.cpu_numpy) = some rec.identifier) ∧
    (0 < recs.length → (recs.getD 0 dflt).start_state = st) ∧
    (∀ k, k + 1 < recs.length →
      (recs.getD (k + 1) dflt).start_state =
        if eev then
          (torch_tensor_f32 (E.get_state
            (E.reset (recs.getD k dflt).end_env none).1)).to device
        else (recs.getD k dflt).start_state) := by
  cases eev with
  | true =>
    obtain ⟨hhead, hadj⟩ := run_episodes_instr_chain_sampled E pols stoch gamma
      device fuel dflt n env0 m st s' m' st' recs h
    exact ⟨run_episodes_instr_ident E pols stoch gamma device true fuel n env0
        m st s' m' st' recs h,
      fun h0 => (hhead h0).2.2,
      fun k hk => by simp only [if_true]; exact (hadj k hk).2.1⟩
  | false =>
    obtain ⟨hhead, hadj⟩ := run_episodes_instr_chain_fixed E pols stoch gamma
      device fuel dflt n env0 m st s' m' st' recs h
    exact ⟨run_episodes_instr_ident E pols stoch gamma device false fuel n env0
        m st s' m' st' recs h,
      fun h0 => (hhead h0).2.2,
      fun k hk => by
        simp only [Bool.false_eq_true, if_false]
        exact (hadj k hk).2.1⟩

/-- C10: in fixed-start mode the observation marshaled after each reset is
built from the reset's returned observation and the run's original state
tensor (no `get_state` query), so under the runner's calling convention
(the initial observation carries the initial state tensor) every episode's
observation carries the very same state tensor; in sampled-start mode the
state attached to the next episode is re-queried from the environment
after every reset. -/
theorem C10_state_tensor_reuse {σ Act : Type} (E : EnvSpec σ Act)
    (pols : List (Policy Act)) (stoch : Bool) (gamma : Rat) (device : String)
    (fuel : Nat) (dflt : EpisodeRecord σ) :
    (∀ (n : Nat) (env0 : σ) (m : ObsMap) (st : Tensor) (s' : σ) (m' : ObsMap)
      (st' : Tensor) (recs : List (EpisodeRecord σ)),
      run_episodes_instr E pols stoch gamma device false fuel n env0 m st =
        some (s', m', st', recs) →
      (∀ k, k + 1 < recs.length →
        process_observation
          (rawObs (E.reset (recs.getD k dflt).end_env (some st.cpu_numpy)).2)
          device st = some ((recs.getD (k + 1) dflt).start_obs)) ∧
      ((∀ kv ∈ m, ∃ ob, kv.2 = ObsVal.marshaled ob st) →
        ∀ rec ∈ recs, ∀ kv ∈ rec.start_obs, ∃ ob, kv.2 = ObsVal.marshaled ob st)) ∧
    (∀ (n : Nat) (env0 : σ) (m : ObsMap) (st : Tensor) (s' : σ) (m' : ObsMap)
      (st' : Tensor) (recs : List (EpisodeRecord σ)),
      run_episodes_instr E pols stoch gamma device true fuel n env0 m st =
        some (s', m', st', recs) →
      ∀ k, k + 1 < recs.length →
        (recs.getD (k + 1) dflt).start_state =
          (torch_tensor_f32 (E.get_state
            (E.reset (recs.getD k dflt).end_env none).1)).to device) := by
  constructor
  · intro n env0 m st s' m' st' recs h
    obtain ⟨-, hadj⟩ := run_episodes_instr_chain_fixed E pols stoch gamma device
      fuel dflt n env0 m st s' m' st' recs h
    obtain ⟨-, hinv⟩ := run_episodes_instr_fixed_inv E pols stoch gamma device
      fuel n env0 m st s' m' st' recs h
    constructor
    · intro k hk
      obtain ⟨-, -, hobs⟩ := hadj k hk
      have hmem : recs.getD k dflt ∈ recs := by
        rw [List.getD_eq_getElem recs dflt (by omega)]
        exact List.getElem_mem _
      rw [(hinv _ hmem).1] at hobs
      exact hobs
    · exact run_episodes_instr_fixed_obs E pols stoch gamma device fuel n env0
        m st s' m' st' recs h
  · intro n env0 m st s' m' st' recs h
    obtain ⟨-, hadj⟩ := run_episodes_instr_chain_sampled E pols stoch gamma device
      fuel dflt n env0 m st s' m' st' recs h
    intro k hk
    exact (hadj k hk).2.1

/-- C1 witness: the concrete two-episode fixed-start run records the
middle cell (1, 1) of the 3 × 3 fire square as both identifiers. -/
theorem C1_identifier_rule_witness :
    (run_episodes 2 cEnv 0 (99 / 100 : Rat) cObs cSt "cpu" cLoad "m" "p" true
      false false 5).map (List.map Prod.snd) = some [(1, 1), (1, 1)] := by
  cases hin : run_episodes_instr cEnv
      (load_agent_policies cLoad "m" "p" true cEnv.num_agents) false (99 / 100 : Rat)
      "cpu" false 5 2 0 cObs cSt with
  | none => exact Option.noConfusion hin
  | some q =>
    obtain ⟨s3, m3, st3, recs⟩ := q
    have h1 := (C1_identifier_rule 2 cEnv 0 (99 / 100 : Rat) cObs cSt "cpu" cLoad
      "m" "p" true false false 5 s3 m3 st3 recs hin).1
    rw [h1]
    have h2 : recs.map (fun rec => rec.identifier) = [(1, 1), (1, 1)] := by
      have h3 : (some (s3, m3, st3, recs) :
          Option (Nat × ObsMap × Tensor × List (EpisodeRecord Nat))).map
          (fun q => q.2.2.2.map fun rec => rec.identifier) = some [(1, 1), (1, 1)] := by
        rw [← hin]
        rfl
      simpa using h3
    show some (List.map Prod.snd (recs.map fun rec => (rec.ret, rec.identifier))) =
      some [(1, 1), (1, 1)]
    rw [List.map_map]
    exact congrArg some h2

/-- C5 witness: the concrete two-episode run returns a list of length 2. -/
theorem C5_output_length_witness :
    (run_episodes 2 cEnv 0 (99 / 100 : Rat) cObs cSt "cpu" cLoad "m" "p" true
      false false 5).map List.length = some 2 := by
  cases hrun : run_episodes 2 cEnv 0 (99 / 100 : Rat) cObs cSt "cpu" cLoad "m" "p"
      true false false 5 with
  | none => exact Option.noConfusion hrun
  | some out =>
    exact congrArg some (C5_output_length 2 cEnv 0 (99 / 100 : Rat) cObs cSt "cpu"
      cLoad "m" "p" true false false 5 out hrun)

/-- C6 witness: after the concrete two-episode fixed-start run the `state`
variable still holds the initial tensor `cSt`. -/
theorem C6_fixed_start_reset_state_witness :
    (run_episodes_instr cEnv cPols false (99 / 100 : Rat) "cpu" false 5 2 0 cObs
      cSt).map (fun q => q.2.2.1) = some cSt := by
  cases hin : run_episodes_instr cEnv cPols false (99 / 100 : Rat) "cpu" false 5 2 0
      cObs cSt with
  | none => exact Option.noConfusion hin
  | some q =>
    obtain ⟨s3, m3, st3, recs⟩ := q
    exact congrArg some (C6_fixed_start_reset_state cEnv cPols false (99 / 100 : Rat)
      "cpu" 5 2 0 cObs cSt s3 m3 st3 recs hin).1

/-- C7 witness: in the concrete two-episode sampled-start run the first
episode's identifier is derived from the runner's input state tensor. -/
theorem C7_identifier_from_episode_start_witness :
    (run_episodes_instr cEnv cPols false (99 / 100 : Rat) "cpu" true 5 2 0 cObs
      cSt).map (fun q => (q.2.2.2.getD 0 cRec).start_state) = some cSt := by
  cases hin : run_episodes_instr cEnv cPols false (99 / 100 : Rat) "cpu" true 5 2 0
      cObs cSt with
  | none => exact Option.noConfusion hin
  | some q =>
    obtain ⟨s3, m3, st3, recs⟩ := q
    have hlen := run_episodes_instr_length cEnv cPols false (99 / 100 : Rat) "cpu"
      true 5 2 0 cObs cSt s3 m3 st3 recs hin
    have h := (C7_identifier_from_episode_start cEnv cPols false (99 / 100 : Rat)
      "cpu" true 5 2 0 cObs cSt s3 m3 st3 recs cRec hin).2.1 (by omega)
    exact congrArg some h

/-- C10 witness: in the concrete sampled-start run the second episode's
state tensor is the re-queried post-reset state `[0]`, while in the
fixed-start run the second episode's observation is marshaled with the
original tensor `cSt`. -/
theorem C10_state_tensor_reuse_witness :
    (run_episodes_instr cEnv cPols false (99 / 100 : Rat) "cpu" true 5 2 0 cObs
      cSt).map (fun q => (q.2.2.2.getD 1 cRec).start_state) =
      some (Tensor.mk [0] "cpu") ∧
    (run_episodes_instr cEnv cPols false (99 / 100 : Rat) "cpu" false 5 2 0 cObs
      cSt).map (fun q => (q.2.2.2.getD 1 cRec).start_obs) =
      some [("0", ObsVal.marshaled ⟨[0], "cpu"⟩ cSt),
            ("1", ObsVal.marshaled ⟨[0], "cpu"⟩ cSt)] := by
  constructor
  · cases hin : run_episodes_instr cEnv cPols false (99 / 100 : Rat) "cpu" true 5 2 0
        cObs cSt with
    | none => exact Option.noConfusion hin
    | some q =>
      obtain ⟨s3, m3, st3, recs⟩ := q
      have hlen := run_episodes_instr_length cEnv cPols false (99 / 100 : Rat) "cpu"
        true 5 2 0 cObs cSt s3 m3 st3 recs hin
      have h := (C10_state_tensor_reuse cEnv cPols false (99 / 100 : Rat) "cpu" 5
        cRec).2 2 0 cObs cSt s3 m3 st3 recs hin 0 (by omega)
      exact congrArg some h
  · cases hin : run_episodes_instr cEnv cPols false (99 / 100 : Rat) "cpu" false 5 2 0
        cObs cSt with
    | none => exact Option.noConfusion hin
    | some q =>
      obtain ⟨s3, m3, st3, recs⟩ := q
      have hlen := run_episodes_instr_length cEnv cPols false (99 / 100 : Rat) "cpu"
        false 5 2 0 cObs cSt s3 m3 st3 recs hin
      have h := ((C10_state_tensor_reuse cEnv cPols false (99 / 100 : Rat) "cpu" 5
        cRec).1 2 0 cObs cSt s3 m3 st3 recs hin).1 0 (by omega)
      exact h.symm.trans rfl
